import Mathlib

set_option maxRecDepth 8192

/-!
Shallow embedding of the hex-grid world core of the `neo` repository:
hexagonal coordinate algebra (`src/world/hex.rs`), chunk identity,
serialization placeholders and the chunk streaming step
(`src/world/chunk.rs`), and the deterministic terrain generator
(`src/world/terrain.rs`).

Modelling conventions:
* `i32` is modelled as `Int`; where the source uses checked arithmetic
  (`checked_mul`/`checked_add`) the `i32` bounds are made explicit, and
  where the source wraps (`as u32`, `wrapping_mul`) the reduction modulo
  `2^32` is explicit.  Plain `i32` arithmetic in the streaming manager is
  idealized as unbounded `Int` arithmetic.
* `u32` is modelled as `Nat` reduced modulo `2^32`.
* `f64`/`f32` are modelled as `Rat`; the seeded Perlin noise source
  (`noise::Perlin::new(seed).get`) is abstracted as a function field
  `noise : Rat → Rat → Rat` of the generator, so one generator value
  corresponds to one `(seed, config)` pair of the source.
* The `HashMap`s (`Chunk::tiles`, `LoadedChunks::chunks`) are modelled as
  association/key lists with HashMap insert semantics (overwrite on
  existing key, append otherwise).
* The Bevy ECS step semantics of `chunk_loading_system` is made explicit:
  `Commands` spawns/despawns are deferred, so the unload phase only sees
  chunk entities that existed when the step began (`live`), while the
  `LoadedChunks` resource map (`resident`) is mutated immediately.
-/

namespace Neo

/-! ### Hex coordinates and directions (src/world/hex.rs) -/

inductive HexDirection : Type where
  | E
  | NE
  | NW
  | W
  | SW
  | SE
deriving DecidableEq, Fintype

structure HexCoord where
  q : Int
  r : Int
deriving DecidableEq

def HexCoord.add (a b : HexCoord) : HexCoord :=
  ⟨a.q + b.q, a.r + b.r⟩

def HexCoord.sub (a b : HexCoord) : HexCoord :=
  ⟨a.q - b.q, a.r - b.r⟩

instance : Add HexCoord := ⟨HexCoord.add⟩

instance : Sub HexCoord := ⟨HexCoord.sub⟩

def HexDirection.to_offset : HexDirection → HexCoord
  | .E => ⟨1, 0⟩
  | .NE => ⟨1, -1⟩
  | .NW => ⟨0, -1⟩
  | .W => ⟨-1, 0⟩
  | .SW => ⟨-1, 1⟩
  | .SE => ⟨0, 1⟩

def HexDirection.all : List HexDirection :=
  [.E, .NE, .NW, .W, .SW, .SE]

def HexDirection.rotate_left : HexDirection → HexDirection
  | .E => .NE
  | .NE => .NW
  | .NW => .W
  | .W => .SW
  | .SW => .SE
  | .SE => .E

def HexDirection.rotate_right : HexDirection → HexDirection
  | .E => .SE
  | .NE => .E
  | .NW => .NE
  | .W => .NW
  | .SW => .W
  | .SE => .SW

def HexDirection.opposite : HexDirection → HexDirection
  | .E => .W
  | .NE => .SW
  | .NW => .SE
  | .W => .E
  | .SW => .NE
  | .SE => .NW

def HexCoord.neighbor (c : HexCoord) (d : HexDirection) : HexCoord :=
  c + d.to_offset

def HexCoord.neighbors (c : HexCoord) : List HexCoord :=
  HexDirection.all.map (fun d => c + d.to_offset)

/-- Cube distance.  The three `i32` absolute values are nonnegative, so the
source's truncating `i32` division by 2 agrees with `Nat` division. -/
def HexCoord.distance_to (a b : HexCoord) : Int :=
  let dx : Nat := (a.q - b.q).natAbs
  let dy : Nat := (a.r - b.r).natAbs
  let dz : Nat := (-a.q - a.r + b.q + b.r).natAbs
  ((dx + dy + dz) / 2 : Nat)

/-- First direction (in the canonical order of `HexDirection::all`) whose
unit offset equals `other - self`, if any. -/
def HexCoord.direction_to (a b : HexCoord) : Option HexDirection :=
  let delta := b - a
  HexDirection.all.find? (fun d => d.to_offset == delta)

def HexCoord.s (c : HexCoord) : Int :=
  -c.q - c.r

def HexCoord.from_cube (q r s : Int) : Option HexCoord :=
  if q + r + s = 0 then some ⟨q, r⟩ else none

/-! ### Chunk identity, tiles, chunk data (src/world/chunk.rs) -/

def CHUNK_SIZE : Int := 16

structure ChunkCoord where
  x : Int
  y : Int
deriving DecidableEq

def U32_MOD : Nat := 4294967296

/-- `as u32` two's-complement cast of an `i32` value. -/
def toU32 (n : Int) : Nat :=
  (n % (U32_MOD : Int)).toNat

/-- `ChunkCoord::position_hash`: `(x as u32).wrapping_mul(31) ^ (y as u32).wrapping_mul(17)`. -/
def ChunkCoord.position_hash (c : ChunkCoord) : Nat :=
  let x := toU32 c.x
  let y := toU32 c.y
  let x_hash := x * 31 % U32_MOD
  let y_hash := y * 17 % U32_MOD
  Nat.xor x_hash y_hash

inductive Biome : Type where
  | Ocean
  | Plains
  | Forest
  | Mountains
  | Desert
deriving DecidableEq

structure Tile where
  elevation : Rat
  biome : Biome
deriving DecidableEq

structure Chunk where
  coord : ChunkCoord
  tiles : List (HexCoord × Tile)
  is_loaded : Bool
  seed : Nat
deriving DecidableEq

/-- `Chunk::new`: empty tiles, not loaded, seed taken from the position hash
alone (the world seed is not consulted here). -/
def Chunk.new (coord : ChunkCoord) : Chunk :=
  ⟨coord, [], false, coord.position_hash⟩

/-- `Chunk::serialize` placeholder: always `Ok(Vec::new())`. -/
def Chunk.serialize (_c : Chunk) : Except String (List Nat) :=
  .ok []

/-- `Chunk::deserialize` placeholder: always a fresh `Chunk::new((0,0))`. -/
def Chunk.deserialize (_bytes : List Nat) : Except String Chunk :=
  .ok (Chunk.new ⟨0, 0⟩)

/-! ### Terrain generation (src/world/terrain.rs) -/

structure TerrainGenerator where
  noise : Rat → Rat → Rat
  scale : Rat
  octaves : Int
  persistence : Rat
  ocean_threshold : Rat
  plains_threshold : Rat
  forest_threshold : Rat

/-- `TerrainGenerator::new(seed)` with its fixed parameters; the seeded
Perlin instance is abstracted as the `noise` argument. -/
def TerrainGenerator.new (noise : Rat → Rat → Rat) : TerrainGenerator :=
  ⟨noise, 1/100, 4, 1/2, 1/5, 2/5, 7/10⟩

structure ElevAcc where
  elevation : Rat
  amplitude : Rat
  frequency : Rat
  max_value : Rat

/-- State of the octave loop in `generate_elevation` after `k` iterations:
the loop body adds `amplitude * noise(q*frequency, r*frequency)` to the
elevation and `amplitude` to `max_value`, then decays the amplitude by
`persistence` and doubles the frequency. -/
def elevLoop (g : TerrainGenerator) (c : HexCoord) : Nat → ElevAcc
  | 0 => ⟨0, 1, g.scale, 0⟩
  | k + 1 =>
    let acc := elevLoop g c k
    ⟨acc.elevation + acc.amplitude * g.noise ((c.q : Rat) * acc.frequency) ((c.r : Rat) * acc.frequency),
     acc.amplitude * g.persistence,
     acc.frequency * 2,
     acc.max_value + acc.amplitude⟩

/-- `TerrainGenerator::generate_elevation`: run `octaves` iterations of the
noise loop and normalize by `(elevation / max_value + 1) / 2`. -/
def TerrainGenerator.generate_elevation (g : TerrainGenerator) (c : HexCoord) : Rat :=
  let acc := elevLoop g c g.octaves.toNat
  (acc.elevation / acc.max_value + 1) / 2

/-- `TerrainGenerator::get_biome` threshold ladder. -/
def TerrainGenerator.get_biome (g : TerrainGenerator) (elevation : Rat) : Biome :=
  if elevation < g.ocean_threshold then .Ocean
  else if elevation < g.plains_threshold then .Plains
  else if elevation < g.forest_threshold then .Forest
  else .Mountains

def I32_MIN : Int := -2147483648

def I32_MAX : Int := 2147483647

/-- `i32::checked_mul` on in-range operands. -/
def checked_mul (a b : Int) : Option Int :=
  if I32_MIN ≤ a * b ∧ a * b ≤ I32_MAX then some (a * b) else none

/-- `i32::checked_add` on in-range operands. -/
def checked_add (a b : Int) : Option Int :=
  if I32_MIN ≤ a + b ∧ a + b ≤ I32_MAX then some (a + b) else none

/-- Global hex column for local column `q` of the chunk at chunk-x `cx`:
`cx.checked_mul(CHUNK_SIZE)` then `.checked_add(q)`, `None` on overflow. -/
def tileHexQ (cx q : Int) : Option Int :=
  match checked_mul cx CHUNK_SIZE with
  | some q_base => checked_add q_base q
  | none => none

/-- Global hex row for local row `r` of the chunk at chunk-y `cy`. -/
def tileHexR (cy r : Int) : Option Int :=
  match checked_mul cy CHUNK_SIZE with
  | some r_base => checked_add r_base r
  | none => none

/-- `HashMap::insert` semantics on the tile association list. -/
def insertTile (tiles : List (HexCoord × Tile)) (k : HexCoord) (v : Tile) :
    List (HexCoord × Tile) :=
  if k ∈ tiles.map Prod.fst then
    tiles.map (fun p => if p.1 = k then (k, v) else p)
  else
    tiles ++ [(k, v)]

/-- The key/tile pair produced for local offset `(q, r)` of the chunk at
`(cx, cy)`, or `None` when the coordinate computation overflows and the
tile is skipped. -/
def tileEntry (g : TerrainGenerator) (cx cy q r : Int) : Option (HexCoord × Tile) :=
  match tileHexQ cx q with
  | some hex_q =>
    match tileHexR cy r with
    | some hex_r =>
      let hex : HexCoord := ⟨hex_q, hex_r⟩
      let elevation := g.generate_elevation hex
      some (hex, ⟨elevation, g.get_biome elevation⟩)
    | none => none
  | none => none

/-- Body of the per-tile loop of `generate_chunk_terrain`: skip on overflow
(`continue`), otherwise insert the generated tile keyed by the global hex
coordinate. -/
def genTile (g : TerrainGenerator) (ch : Chunk) (q r : Int) : Chunk :=
  match tileHexQ ch.coord.x q with
  | some hex_q =>
    match tileHexR ch.coord.y r with
    | some hex_r =>
      let hex : HexCoord := ⟨hex_q, hex_r⟩
      let elevation := g.generate_elevation hex
      let biome := g.get_biome elevation
      { ch with tiles := insertTile ch.tiles hex ⟨elevation, biome⟩ }
    | none => ch
  | none => ch

/-- `0..=hi` style inclusive integer range as a list. -/
def intRange (lo hi : Int) : List Int :=
  (List.range (hi + 1 - lo).toNat).map (fun i : Nat => lo + (i : Int))

/-- `TerrainGenerator::generate_chunk_terrain`: the nested
`for q in 0..CHUNK_SIZE { for r in 0..CHUNK_SIZE { ... } }` fill loop. -/
def TerrainGenerator.generate_chunk_terrain (g : TerrainGenerator) (ch : Chunk) : Chunk :=
  (intRange 0 (CHUNK_SIZE - 1)).foldl
    (fun ch1 q => (intRange 0 (CHUNK_SIZE - 1)).foldl (fun ch2 r => genTile g ch2 q r) ch1)
    ch

/-- The 256 local `(q, r)` offsets of the chunk-fill loop, in loop order. -/
def QRlist : List (Int × Int) :=
  (intRange 0 (CHUNK_SIZE - 1)).flatMap
    (fun q => (intRange 0 (CHUNK_SIZE - 1)).map (fun r : Int => (q, r)))

/-! ### Chunk streaming (chunk_loading_system in src/world/chunk.rs) -/

/-- State relevant to one invocation of `chunk_loading_system`:
`live` are the chunk entities visible to the `Query<(Entity, &Chunk)>`
(spawns are deferred, so chunks spawned during a step only become visible
at the next step), `resident` is the key set of `LoadedChunks::chunks`. -/
structure StreamState where
  live : List Chunk
  resident : List ChunkCoord

structure StepResult where
  state : StreamState
  generated : List ChunkCoord

/-- The square window `{(p.x+dx, p.y+dy) : dx, dy ∈ [-radius, radius]}`
enumerated by the load scan, in loop order. -/
def window (radius : Int) (p : ChunkCoord) : List ChunkCoord :=
  (intRange (-radius) radius).flatMap (fun dx =>
    (intRange (-radius) radius).map (fun dy => ⟨p.x + dx, p.y + dy⟩))

/-- `HashMap::insert` key-set semantics for `LoadedChunks::chunks`. -/
def insertKey (l : List ChunkCoord) (c : ChunkCoord) : List ChunkCoord :=
  if c ∈ l then l else l ++ [c]

/-- Construction of a newly loaded chunk in the load phase of
`chunk_loading_system`: `Chunk::new`, overwrite the seed with
`world_seed ^ position_hash`, populate the terrain, mark loaded. -/
def loadChunk (g : TerrainGenerator) (world_seed : Nat) (c : ChunkCoord) : Chunk :=
  { g.generate_chunk_terrain
      { Chunk.new c with seed := Nat.xor world_seed c.position_hash } with
    is_loaded := true }

/-- The retention test of the unload phase: some loader is within
`load_radius` on both axes independently (Chebyshev window). -/
def inRangeOf (radius : Int) (loaders : List ChunkCoord) (c : ChunkCoord) : Prop :=
  ∃ p ∈ loaders, ((c.x - p.x).natAbs : Int) ≤ radius ∧ ((c.y - p.y).natAbs : Int) ≤ radius

instance inRangeOf.instDecidable (radius : Int) (loaders : List ChunkCoord) (c : ChunkCoord) :
    Decidable (inRangeOf radius loaders c) := by
  unfold inRangeOf
  infer_instance

/-- One invocation of `chunk_loading_system`.

Phase 1 (collection): for every loader, scan its window and push every
coordinate that is not a key of the resident map; the map is not updated
during collection, so the same non-resident coordinate may be pushed once
per covering loader.

Phase 2 (load): for every pushed coordinate, build the chunk
(`loadChunk`, recorded in `generated`), spawn it (deferred, appended to
the next step's `live`) and insert its key into the resident map.

Phase 3 (unload): every pre-existing chunk entity within no loader's
window is despawned and its coordinate removed from the resident map. -/
def chunk_loading_system (g : TerrainGenerator) (world_seed : Nat) (radius : Int)
    (loaders : List ChunkCoord) (st : StreamState) : StepResult :=
  let chunks_to_load := loaders.foldl
    (fun acc p => acc ++ (window radius p).filter (fun c => decide (c ∉ st.resident))) []
  let newChunks := chunks_to_load.map (fun c => loadChunk g world_seed c)
  let resident1 := chunks_to_load.foldl insertKey st.resident
  let chunks_to_unload :=
    (st.live.filter (fun ch => decide (¬ inRangeOf radius loaders ch.coord))).map
      (fun ch => ch.coord)
  let live1 := st.live.filter (fun ch => decide (inRangeOf radius loaders ch.coord)) ++ newChunks
  let resident2 := resident1.filter (fun c => decide (c ∉ chunks_to_unload))
  ⟨⟨live1, resident2⟩, chunks_to_load⟩

/-- The constant-zero stand-in noise used for concrete test instances. -/
def zeroNoise : Rat → Rat → Rat :=
  fun _ _ => 0

/-- A concrete generator with the default parameters of
`TerrainGenerator::new` and the constant-zero noise stand-in. -/
def testGen : TerrainGenerator :=
  TerrainGenerator.new zeroNoise

/-- Scenario of §8: first streaming step, empty world, one loader at
`(0,0)`, `load_radius = 2`. -/
def scenarioStep1 : StepResult :=
  chunk_loading_system testGen 0 2 [⟨0, 0⟩] ⟨[], []⟩

/-- Scenario of §8, continued: the loader teleports to `(10,10)` and the
next step runs. -/
def scenarioStep2 : StepResult :=
  chunk_loading_system testGen 0 2 [⟨10, 10⟩] scenarioStep1.state

/-! ### Helper lemmas -/

lemma hex_add_def (a b : HexCoord) : a + b = ⟨a.q + b.q, a.r + b.r⟩ := rfl

lemma hex_sub_def (a b : HexCoord) : a - b = ⟨a.q - b.q, a.r - b.r⟩ := rfl

lemma neighbor_sub_self (a : HexCoord) (d : HexDirection) :
    a.neighbor d - a = d.to_offset := by
  obtain ⟨q, r⟩ := a
  cases d <;>
    simp [HexCoord.neighbor, HexDirection.to_offset, hex_add_def, hex_sub_def,
      HexCoord.mk.injEq]

lemma sub_self_eq_zero (a : HexCoord) : a - a = (⟨0, 0⟩ : HexCoord) := by
  obtain ⟨q, r⟩ := a
  simp [hex_sub_def, HexCoord.mk.injEq]

lemma genTile_seed (g : TerrainGenerator) (ch : Chunk) (q r : Int) :
    (genTile g ch q r).seed = ch.seed := by
  unfold genTile
  split
  · split
    · rfl
    · rfl
  · rfl

lemma genTile_coord (g : TerrainGenerator) (ch : Chunk) (q r : Int) :
    (genTile g ch q r).coord = ch.coord := by
  unfold genTile
  split
  · split
    · rfl
    · rfl
  · rfl

lemma foldl_proj {α β : Type} (proj : Chunk → β) (f : Chunk → α → Chunk)
    (h : ∀ ch x, proj (f ch x) = proj ch) :
    ∀ (l : List α) (ch : Chunk), proj (l.foldl f ch) = proj ch := by
  intro l
  induction l with
  | nil => intro ch; rfl
  | cons x xs ih => intro ch; rw [List.foldl_cons, ih, h]

lemma generate_chunk_terrain_seed (g : TerrainGenerator) (ch : Chunk) :
    (g.generate_chunk_terrain ch).seed = ch.seed := by
  unfold TerrainGenerator.generate_chunk_terrain
  apply foldl_proj
  intro ch1 q
  apply foldl_proj
  intro ch2 r
  exact genTile_seed g ch2 q r

lemma generate_chunk_terrain_coord (g : TerrainGenerator) (ch : Chunk) :
    (g.generate_chunk_terrain ch).coord = ch.coord := by
  unfold TerrainGenerator.generate_chunk_terrain
  apply foldl_proj
  intro ch1 q
  apply foldl_proj
  intro ch2 r
  exact genTile_coord g ch2 q r

lemma loadChunk_coord (g : TerrainGenerator) (w : Nat) (c : ChunkCoord) :
    (loadChunk g w c).coord = c := by
  dsimp only [loadChunk]
  rw [generate_chunk_terrain_coord]
  rfl

lemma mem_intRange (x lo hi : Int) : x ∈ intRange lo hi ↔ lo ≤ x ∧ x ≤ hi := by
  unfold intRange
  simp only [List.mem_map, List.mem_range]
  constructor
  · rintro ⟨i, hi', rfl⟩
    omega
  · intro h
    exact ⟨(x - lo).toNat, by omega, by omega⟩

lemma mem_window (radius : Int) (p c : ChunkCoord) :
    c ∈ window radius p ↔
      ((c.x - p.x).natAbs : Int) ≤ radius ∧ ((c.y - p.y).natAbs : Int) ≤ radius := by
  unfold window
  simp only [List.mem_flatMap, List.mem_map, mem_intRange]
  obtain ⟨cx, cy⟩ := c
  constructor
  · rintro ⟨dx, hdx, dy, hdy, h⟩
    injection h with h1 h2
    simp only
    omega
  · intro h
    simp only at h
    refine ⟨cx - p.x, by omega, cy - p.y, by omega, ?_⟩
    simp only [ChunkCoord.mk.injEq]
    omega

lemma mem_insertKey (l : List ChunkCoord) (a c : ChunkCoord) :
    c ∈ insertKey l a ↔ c ∈ l ∨ c = a := by
  by_cases h : a ∈ l
  · rw [insertKey, if_pos h]
    constructor
    · exact Or.inl
    · rintro (hc | rfl)
      · exact hc
      · exact h
  · rw [insertKey, if_neg h]
    simp [List.mem_append]

lemma nodup_insertKey (l : List ChunkCoord) (a : ChunkCoord) (h : l.Nodup) :
    (insertKey l a).Nodup := by
  by_cases ha : a ∈ l
  · rw [insertKey, if_pos ha]
    exact h
  · rw [insertKey, if_neg ha, ← List.concat_eq_append]
    exact List.Nodup.concat ha h

lemma mem_foldl_insertKey (l : List ChunkCoord) :
    ∀ (r : List ChunkCoord) (c : ChunkCoord),
      c ∈ l.foldl insertKey r ↔ c ∈ r ∨ c ∈ l := by
  induction l with
  | nil =>
    intro r c
    simp
  | cons a l ih =>
    intro r c
    rw [List.foldl_cons, ih, mem_insertKey, List.mem_cons]
    tauto

lemma nodup_foldl_insertKey (l : List ChunkCoord) :
    ∀ (r : List ChunkCoord), r.Nodup → (l.foldl insertKey r).Nodup := by
  induction l with
  | nil =>
    intro r h
    exact h
  | cons a l ih =>
    intro r h
    rw [List.foldl_cons]
    exact ih _ (nodup_insertKey r a h)

lemma mem_foldl_append {α β : Type} (f : β → List α) (l : List β) :
    ∀ (acc : List α) (c : α),
      c ∈ l.foldl (fun a p => a ++ f p) acc ↔ c ∈ acc ∨ ∃ p ∈ l, c ∈ f p := by
  induction l with
  | nil =>
    intro acc c
    simp
  | cons p l ih =>
    intro acc c
    rw [List.foldl_cons, ih]
    simp only [List.mem_append, List.exists_mem_cons_iff]
    tauto

lemma mem_chunks_to_load (radius : Int)
    (loaders resident : List ChunkCoord) (c : ChunkCoord) :
    (c ∈ loaders.foldl
        (fun acc p => acc ++ (window radius p).filter (fun x => decide (x ∉ resident))) []) ↔
      (∃ p ∈ loaders, c ∈ window radius p) ∧ c ∉ resident := by
  rw [mem_foldl_append]
  simp only [List.not_mem_nil, false_or, List.mem_filter, decide_eq_true_eq]
  tauto

lemma inRangeOf_iff_window (radius : Int) (loaders : List ChunkCoord) (c : ChunkCoord) :
    inRangeOf radius loaders c ↔ ∃ p ∈ loaders, c ∈ window radius p := by
  unfold inRangeOf
  constructor
  · rintro ⟨p, hp, h1, h2⟩
    exact ⟨p, hp, (mem_window radius p c).2 ⟨h1, h2⟩⟩
  · rintro ⟨p, hp, h⟩
    obtain ⟨h1, h2⟩ := (mem_window radius p c).1 h
    exact ⟨p, hp, h1, h2⟩

lemma mem_chunks_to_unload (radius : Int) (loaders : List ChunkCoord)
    (live : List Chunk) (c : ChunkCoord) :
    (c ∈ (live.filter (fun ch => decide (¬ inRangeOf radius loaders ch.coord))).map
        (fun ch => ch.coord)) ↔
      (∃ ch ∈ live, ch.coord = c) ∧ ¬ inRangeOf radius loaders c := by
  simp only [List.mem_map, List.mem_filter, decide_eq_true_eq]
  constructor
  · rintro ⟨ch, ⟨hmem, hnr⟩, rfl⟩
    exact ⟨⟨ch, hmem, rfl⟩, hnr⟩
  · rintro ⟨⟨ch, hmem, hc⟩, hnr⟩
    subst hc
    exact ⟨ch, ⟨hmem, hnr⟩, rfl⟩

lemma step_resident_iff (g : TerrainGenerator) (w : Nat) (radius : Int)
    (loaders : List ChunkCoord) (st : StreamState)
    (hinv : ∀ x, x ∈ st.resident ↔ ∃ ch ∈ st.live, ch.coord = x) (c : ChunkCoord) :
    c ∈ (chunk_loading_system g w radius loaders st).state.resident ↔
      inRangeOf radius loaders c := by
  unfold chunk_loading_system
  dsimp only
  rw [List.mem_filter, decide_eq_true_eq, mem_foldl_insertKey,
    mem_chunks_to_load, mem_chunks_to_unload, hinv c, inRangeOf_iff_window]
  by_cases hW : ∃ p ∈ loaders, c ∈ window radius p <;>
    by_cases hA : ∃ ch ∈ st.live, ch.coord = c <;>
      simp [hW, hA]

lemma step_preserves_inv (g : TerrainGenerator) (w : Nat) (radius : Int)
    (loaders : List ChunkCoord) (st : StreamState)
    (hinv : ∀ x, x ∈ st.resident ↔ ∃ ch ∈ st.live, ch.coord = x) :
    ∀ x, x ∈ (chunk_loading_system g w radius loaders st).state.resident ↔
      ∃ ch ∈ (chunk_loading_system g w radius loaders st).state.live, ch.coord = x := by
  intro x
  rw [step_resident_iff g w radius loaders st hinv x]
  unfold chunk_loading_system
  dsimp only
  constructor
  · intro hx
    by_cases hr : x ∈ st.resident
    · obtain ⟨ch, hch, hcoord⟩ := (hinv x).1 hr
      refine ⟨ch, ?_, hcoord⟩
      rw [List.mem_append]
      left
      rw [List.mem_filter]
      refine ⟨hch, ?_⟩
      rw [decide_eq_true_eq, hcoord]
      exact hx
    · refine ⟨loadChunk g w x, ?_, loadChunk_coord g w x⟩
      rw [List.mem_append]
      right
      rw [List.mem_map]
      refine ⟨x, ?_, rfl⟩
      rw [mem_chunks_to_load]
      exact ⟨(inRangeOf_iff_window radius loaders x).1 hx, hr⟩
  · rintro ⟨ch, hch, hcoord⟩
    rw [List.mem_append] at hch
    rcases hch with hf | hn
    · rw [List.mem_filter, decide_eq_true_eq] at hf
      rw [← hcoord]
      exact hf.2
    · rw [List.mem_map] at hn
      obtain ⟨cc, hcc, hload⟩ := hn
      rw [mem_chunks_to_load] at hcc
      have : ch.coord = cc := by
        rw [← hload, loadChunk_coord]
      rw [← hcoord, this]
      exact (inRangeOf_iff_window radius loaders cc).2 hcc.1

lemma elevLoop_bounds (g : TerrainGenerator) (c : HexCoord)
    (hnoise : ∀ x y, -1 ≤ g.noise x y ∧ g.noise x y ≤ 1)
    (hpers : 0 ≤ g.persistence) :
    ∀ k, 0 ≤ (elevLoop g c k).amplitude ∧
      -(elevLoop g c k).max_value ≤ (elevLoop g c k).elevation ∧
      (elevLoop g c k).elevation ≤ (elevLoop g c k).max_value ∧
      (1 ≤ k → 1 ≤ (elevLoop g c k).max_value) := by
  intro k
  induction k with
  | zero =>
    refine ⟨?_, ?_, ?_, ?_⟩ <;> norm_num [elevLoop]
  | succ k ih =>
    obtain ⟨ha, hl, hu, hm⟩ := ih
    have hn := hnoise ((c.q : Rat) * (elevLoop g c k).frequency)
      ((c.r : Rat) * (elevLoop g c k).frequency)
    have hb1 : (elevLoop g c k).amplitude *
        g.noise ((c.q : Rat) * (elevLoop g c k).frequency)
          ((c.r : Rat) * (elevLoop g c k).frequency) ≤ (elevLoop g c k).amplitude := by
      have h := mul_le_mul_of_nonneg_left hn.2 ha
      rwa [mul_one] at h
    have hb2 : -(elevLoop g c k).amplitude ≤ (elevLoop g c k).amplitude *
        g.noise ((c.q : Rat) * (elevLoop g c k).frequency)
          ((c.r : Rat) * (elevLoop g c k).frequency) := by
      have h := mul_le_mul_of_nonneg_left hn.1 ha
      rwa [mul_neg_one] at h
    refine ⟨?_, ?_, ?_, ?_⟩
    · show 0 ≤ (elevLoop g c k).amplitude * g.persistence
      exact mul_nonneg ha hpers
    · show -((elevLoop g c k).max_value + (elevLoop g c k).amplitude) ≤
        (elevLoop g c k).elevation + _
      linarith
    · show (elevLoop g c k).elevation + _ ≤
        (elevLoop g c k).max_value + (elevLoop g c k).amplitude
      linarith
    · intro _
      show (1 : Rat) ≤ (elevLoop g c k).max_value + (elevLoop g c k).amplitude
      rcases Nat.eq_zero_or_pos k with rfl | hk
      · norm_num [elevLoop]
      · have := hm hk
        linarith

lemma checked_mul_some (a b v : Int) (h : checked_mul a b = some v) : v = a * b := by
  unfold checked_mul at h
  split at h
  · injection h with h'
    exact h'.symm
  · exact Option.noConfusion h

lemma checked_add_some (a b v : Int) (h : checked_add a b = some v) : v = a + b := by
  unfold checked_add at h
  split at h
  · injection h with h'
    exact h'.symm
  · exact Option.noConfusion h

lemma tileHexQ_some_val (cx q v : Int) (h : tileHexQ cx q = some v) :
    v = cx * CHUNK_SIZE + q := by
  unfold tileHexQ at h
  cases hm : checked_mul cx CHUNK_SIZE with
  | none =>
    rw [hm] at h
    exact Option.noConfusion h
  | some qb =>
    rw [hm] at h
    rw [checked_add_some qb q v h, checked_mul_some cx CHUNK_SIZE qb hm]

lemma tileHexR_some_val (cy r v : Int) (h : tileHexR cy r = some v) :
    v = cy * CHUNK_SIZE + r := by
  unfold tileHexR at h
  cases hm : checked_mul cy CHUNK_SIZE with
  | none =>
    rw [hm] at h
    exact Option.noConfusion h
  | some rb =>
    rw [hm] at h
    rw [checked_add_some rb r v h, checked_mul_some cy CHUNK_SIZE rb hm]

lemma tileEntry_some_key (g : TerrainGenerator) (cx cy q r : Int) (e : HexCoord × Tile)
    (h : tileEntry g cx cy q r = some e) :
    e.1 = ⟨cx * CHUNK_SIZE + q, cy * CHUNK_SIZE + r⟩ := by
  unfold tileEntry at h
  cases hq : tileHexQ cx q with
  | none =>
    rw [hq] at h
    exact Option.noConfusion h
  | some hexq =>
    rw [hq] at h
    cases hr : tileHexR cy r with
    | none =>
      rw [hr] at h
      exact Option.noConfusion h
    | some hexr =>
      rw [hr] at h
      injection h with h'
      rw [← h']
      dsimp only
      rw [tileHexQ_some_val cx q hexq hq, tileHexR_some_val cy r hexr hr]

lemma insertTile_not_mem (ts : List (HexCoord × Tile)) (k : HexCoord) (v : Tile)
    (h : k ∉ ts.map Prod.fst) : insertTile ts k v = ts ++ [(k, v)] := by
  rw [insertTile, if_neg h]

lemma genTile_eq (g : TerrainGenerator) (cx cy : Int) (ts : List (HexCoord × Tile))
    (b : Bool) (s : Nat) (q r : Int) :
    genTile g ⟨⟨cx, cy⟩, ts, b, s⟩ q r =
      match tileEntry g cx cy q r with
      | some e => ⟨⟨cx, cy⟩, insertTile ts e.1 e.2, b, s⟩
      | none => ⟨⟨cx, cy⟩, ts, b, s⟩ := by
  cases h1 : tileHexQ cx q with
  | none => simp [genTile, tileEntry, h1]
  | some hexq =>
    cases h2 : tileHexR cy r with
    | none => simp [genTile, tileEntry, h1, h2]
    | some hexr => simp [genTile, tileEntry, h1, h2]

lemma foldl_genTile_eq (g : TerrainGenerator) (cx cy : Int) (b : Bool) (s : Nat) :
    ∀ (L : List (Int × Int)) (acc : List (HexCoord × Tile)),
      (∀ p ∈ L, ∀ e, tileEntry g cx cy p.1 p.2 = some e → e.1 ∉ acc.map Prod.fst) →
      (∀ p ∈ L, ∀ p' ∈ L, ∀ e e', tileEntry g cx cy p.1 p.2 = some e →
        tileEntry g cx cy p'.1 p'.2 = some e' → e.1 = e'.1 → p = p') →
      L.Nodup →
      (L.foldl (fun ch p => genTile g ch p.1 p.2) ⟨⟨cx, cy⟩, acc, b, s⟩).tiles =
        acc ++ L.filterMap (fun p => tileEntry g cx cy p.1 p.2) := by
  intro L
  induction L with
  | nil =>
    intro acc _ _ _
    simp
  | cons p L ih =>
    intro acc hacc hinj hnd
    rw [List.foldl_cons, List.filterMap_cons]
    have hndL : L.Nodup := (List.nodup_cons.1 hnd).2
    have hpL : p ∉ L := (List.nodup_cons.1 hnd).1
    cases h : tileEntry g cx cy p.1 p.2 with
    | none =>
      rw [genTile_eq, h]
      dsimp only
      exact ih acc
        (fun p' hp' e he => hacc p' (List.mem_cons_of_mem p hp') e he)
        (fun a ha a' ha' e e' he he' hk =>
          hinj a (List.mem_cons_of_mem p ha) a' (List.mem_cons_of_mem p ha') e e' he he' hk)
        hndL
    | some e =>
      rw [genTile_eq, h]
      dsimp only
      have hfresh : e.1 ∉ acc.map Prod.fst :=
        hacc p (List.mem_cons_self p L) e h
      rw [insertTile_not_mem acc e.1 e.2 hfresh]
      have hstep := ih (acc ++ [(e.1, e.2)])
        (fun p' hp' e' he' => by
          rw [List.map_append, List.mem_append]
          rintro (hin | hin)
          · exact hacc p' (List.mem_cons_of_mem p hp') e' he' hin
          · simp only [List.map_cons, List.map_nil, List.mem_singleton] at hin
            have hpp : p' = p :=
              hinj p' (List.mem_cons_of_mem p hp') p (List.mem_cons_self p L) e' e he' h hin
            rw [hpp] at hp'
            exact hpL hp')
        (fun a ha a' ha' e1 e2 he1 he2 hk =>
          hinj a (List.mem_cons_of_mem p ha) a' (List.mem_cons_of_mem p ha') e1 e2 he1 he2 hk)
        hndL
      rw [hstep, List.append_assoc, List.singleton_append]

lemma foldl_flatMap_pairs {α : Type} (f : α → Int → Int → α) (qs rs : List Int) :
    ∀ (a : α),
      (qs.flatMap (fun q => rs.map (fun r : Int => (q, r)))).foldl
          (fun x p => f x p.1 p.2) a =
        qs.foldl (fun x q => rs.foldl (fun y r => f y q r) x) a := by
  induction qs with
  | nil =>
    intro a
    rfl
  | cons q qs ih =>
    intro a
    rw [List.flatMap_cons, List.foldl_append, List.foldl_map, ih, List.foldl_cons]

lemma generate_chunk_terrain_as_QRlist (g : TerrainGenerator) (ch : Chunk) :
    g.generate_chunk_terrain ch =
      QRlist.foldl (fun c p => genTile g c p.1 p.2) ch := by
  unfold TerrainGenerator.generate_chunk_terrain QRlist
  exact (foldl_flatMap_pairs (fun c q r => genTile g c q r) _ _ ch).symm

lemma mem_QRlist (p : Int × Int) :
    p ∈ QRlist ↔ 0 ≤ p.1 ∧ p.1 ≤ 15 ∧ 0 ≤ p.2 ∧ p.2 ≤ 15 := by
  obtain ⟨q, r⟩ := p
  unfold QRlist
  simp only [List.mem_flatMap, List.mem_map, mem_intRange, Prod.mk.injEq, CHUNK_SIZE]
  constructor
  · rintro ⟨q', hq', r', hr', rfl, rfl⟩
    omega
  · intro h
    exact ⟨q, by omega, r, by omega, rfl, rfl⟩

lemma nodup_QRlist : QRlist.Nodup := by
  decide

lemma length_filterMap_of_isSome {α β : Type} (f : α → Option β) :
    ∀ (l : List α), (∀ x ∈ l, (f x).isSome) → (l.filterMap f).length = l.length := by
  intro l
  induction l with
  | nil =>
    intro _
    rfl
  | cons x xs ih =>
    intro h
    rw [List.filterMap_cons]
    cases hx : f x with
    | none =>
      have hs := h x (List.mem_cons_self x xs)
      rw [hx] at hs
      exact absurd hs (by simp)
    | some y =>
      rw [List.length_cons, ih (fun z hz => h z (List.mem_cons_of_mem x hz))]
      rfl

lemma QRlist_length : QRlist.length = 256 := by
  decide

lemma QRlist_entry_inj (g : TerrainGenerator) (cx cy : Int) :
    ∀ p ∈ QRlist, ∀ p' ∈ QRlist, ∀ e e', tileEntry g cx cy p.1 p.2 = some e →
      tileEntry g cx cy p'.1 p'.2 = some e' → e.1 = e'.1 → p = p' := by
  intro p hp p' hp' e e' he he' hk
  rw [mem_QRlist] at hp hp'
  have h1 := tileEntry_some_key g cx cy p.1 p.2 e he
  have h2 := tileEntry_some_key g cx cy p'.1 p'.2 e' he'
  rw [h1, h2, HexCoord.mk.injEq, CHUNK_SIZE] at hk
  obtain ⟨hq, hr⟩ := hk
  obtain ⟨a, b⟩ := p
  obtain ⟨a', b'⟩ := p'
  dsimp only at hq hr
  rw [Prod.mk.injEq]
  omega

lemma generate_chunk_terrain_tiles_eq (g : TerrainGenerator) (cx cy : Int)
    (b : Bool) (s : Nat) :
    (g.generate_chunk_terrain ⟨⟨cx, cy⟩, [], b, s⟩).tiles =
      QRlist.filterMap (fun p => tileEntry g cx cy p.1 p.2) := by
  rw [generate_chunk_terrain_as_QRlist]
  have h := foldl_genTile_eq g cx cy b s QRlist []
    (fun p _ e _ => by simp)
    (QRlist_entry_inj g cx cy)
    nodup_QRlist
  rw [h, List.nil_append]

lemma tileEntry_small_isSome (g : TerrainGenerator) (q r : Int)
    (hq0 : 0 ≤ q) (hq1 : q ≤ 15) (hr0 : 0 ≤ r) (hr1 : r ≤ 15) :
    (tileEntry g 0 0 q r).isSome := by
  have hmq : checked_mul 0 CHUNK_SIZE = some 0 := by
    norm_num [checked_mul, I32_MIN, I32_MAX, CHUNK_SIZE]
  have haq : checked_add 0 q = some q := by
    rw [checked_add, if_pos (by constructor <;> [norm_num [I32_MIN]; norm_num [I32_MAX]] <;> omega)]
    norm_num
  have har : checked_add 0 r = some r := by
    rw [checked_add, if_pos (by constructor <;> [norm_num [I32_MIN]; norm_num [I32_MAX]] <;> omega)]
    norm_num
  have hq : tileHexQ 0 q = some q := by
    unfold tileHexQ
    rw [hmq]
    exact haq
  have hr : tileHexR 0 r = some r := by
    unfold tileHexR
    rw [hmq]
    exact har
  unfold tileEntry
  rw [hq, hr]
  rfl

/-! ### Claim theorems -/

/-- Claim C7: `distance_to` is the cube distance and a metric —
nonnegative, symmetric, zero exactly on equal coordinates, and satisfying
the triangle inequality. -/
theorem hex_distance_metric (a b c : HexCoord) :
    0 ≤ a.distance_to b ∧
    a.distance_to b = b.distance_to a ∧
    (a.distance_to b = 0 ↔ a = b) ∧
    a.distance_to c ≤ a.distance_to b + b.distance_to c := by
  obtain ⟨aq, ar⟩ := a
  obtain ⟨bq, br⟩ := b
  obtain ⟨cq, cr⟩ := c
  simp only [HexCoord.distance_to, HexCoord.mk.injEq]
  refine ⟨?_, ?_, ?_, ?_⟩ <;> omega

/-- Claim C8: the rotation operations are mutually consistent —
`rotate_right` undoes `rotate_left` and vice versa, and `opposite` is
three successive `rotate_left` steps; all three are closed on the six
directions by typing. -/
theorem hex_rotation_consistent :
    ∀ d : HexDirection,
      d.rotate_left.rotate_right = d ∧
      d.rotate_right.rotate_left = d ∧
      d.opposite = d.rotate_left.rotate_left.rotate_left := by
  decide

/-- Claim C9: `direction_to` recovers the direction of any neighbor, and
returns `none` whenever the difference is not one of the six unit
offsets — in particular on equal coordinates. -/
theorem direction_to_spec (a b : HexCoord) (d : HexDirection)
    (h : ∀ d' : HexDirection, d'.to_offset ≠ b - a) :
    a.direction_to (a.neighbor d) = some d ∧
    a.direction_to b = none ∧
    a.direction_to a = none := by
  refine ⟨?_, ?_, ?_⟩
  · show HexDirection.all.find? (fun d' => d'.to_offset == (a.neighbor d - a)) = some d
    rw [neighbor_sub_self]
    cases d <;> rfl
  · show HexDirection.all.find? (fun d' => d'.to_offset == (b - a)) = none
    rw [List.find?_eq_none]
    intro d' _
    simpa using h d'
  · show HexDirection.all.find? (fun d' => d'.to_offset == (a - a)) = none
    rw [sub_self_eq_zero]
    rfl

theorem direction_to_spec_witness :
    (∀ d' : HexDirection, d'.to_offset ≠ (⟨5, 0⟩ : HexCoord) - ⟨0, 0⟩) ∧
    ((⟨0, 0⟩ : HexCoord).direction_to ((⟨0, 0⟩ : HexCoord).neighbor .E) = some .E ∧
      (⟨0, 0⟩ : HexCoord).direction_to ⟨5, 0⟩ = none ∧
      (⟨0, 0⟩ : HexCoord).direction_to ⟨0, 0⟩ = none) :=
  ⟨by decide, direction_to_spec ⟨0, 0⟩ ⟨5, 0⟩ .E (by decide)⟩

/-- Claim C10 (implicit): the serialization placeholders — `serialize`
always returns `Ok` of the empty byte vector, `deserialize` always returns
`Ok` of a fresh chunk at `(0,0)`, so the round trip recovers neither the
coordinate of a chunk away from `(0,0)` nor any non-empty tile map. -/
theorem serialize_placeholder_roundtrip (c : Chunk) (bytes : List Nat)
    (hc : c.coord ≠ ⟨0, 0⟩ ∨ c.tiles ≠ []) :
    Chunk.serialize c = .ok [] ∧
    Chunk.deserialize bytes = .ok (Chunk.new ⟨0, 0⟩) ∧
    ∀ ch, Chunk.deserialize bytes = .ok ch →
      ch.coord ≠ c.coord ∨ ch.tiles ≠ c.tiles := by
  refine ⟨rfl, rfl, ?_⟩
  intro ch h
  have hch : ch = Chunk.new ⟨0, 0⟩ := by
    have h' : Except.ok (Chunk.new ⟨0, 0⟩) = (Except.ok ch : Except String Chunk) := h
    exact (Except.ok.injEq _ _ ▸ h').symm
  subst hch
  rcases hc with h1 | h2
  · exact Or.inl (fun he => h1 he.symm)
  · exact Or.inr (fun he => h2 he.symm)

theorem serialize_placeholder_roundtrip_witness :
    ((Chunk.new ⟨1, 1⟩).coord ≠ (⟨0, 0⟩ : ChunkCoord) ∨ (Chunk.new ⟨1, 1⟩).tiles ≠ []) ∧
    (Chunk.serialize (Chunk.new ⟨1, 1⟩) = .ok [] ∧
      Chunk.deserialize [] = .ok (Chunk.new ⟨0, 0⟩) ∧
      ∀ ch, Chunk.deserialize [] = .ok ch →
        ch.coord ≠ (Chunk.new ⟨1, 1⟩).coord ∨ ch.tiles ≠ (Chunk.new ⟨1, 1⟩).tiles) :=
  ⟨Or.inl (by decide), serialize_placeholder_roundtrip _ _ (Or.inl (by decide))⟩

/-- Claim C1, counterexample: with world seed `1`, the chunk constructed by
`Chunk::new((3,4))` has seed `position_hash((3,4)) = 25`, not
`1 XOR position_hash((3,4)) = 24` — `Chunk::new` never consults the world
seed. -/
theorem chunk_new_seed_cex :
    ¬ ((Chunk.new ⟨3, 4⟩).seed = Nat.xor 1 (ChunkCoord.position_hash ⟨3, 4⟩)) := by
  decide

/-- Claim C1, amended: `Chunk::new(c)` itself sets `seed = position_hash(c)`
(no world-seed XOR); the XOR with the world seed is applied by the load
phase of `chunk_loading_system`, so a chunk *loaded by the streaming step*
for `c` has seed `world_seed XOR position_hash(c)`.  Both derivations are
pure functions of their inputs, hence stable across repeated
construction. -/
theorem chunk_seed_derivation (c : ChunkCoord) (g : TerrainGenerator) (w : Nat) :
    (Chunk.new c).seed = c.position_hash ∧
    (loadChunk g w c).seed = Nat.xor w c.position_hash := by
  refine ⟨rfl, ?_⟩
  dsimp only [loadChunk]
  rw [generate_chunk_terrain_seed]

/-- Claim C5: `generate_chunk_terrain` keys every generated tile by the
global hex coordinate `(cx·CHUNK_SIZE + q, cy·CHUNK_SIZE + r)` of its
local offset `(q, r) ∈ [0, CHUNK_SIZE)²`; a tile is present exactly when
its checked coordinate computation succeeds, so each overflowing tile is
skipped individually while every non-overflowing tile is still inserted,
and a chunk populated from empty holds exactly `CHUNK_SIZE² = 256`
entries whenever no overflow occurs. -/
theorem generate_chunk_terrain_tiles (g : TerrainGenerator) (cx cy : Int)
    (b : Bool) (s : Nat) :
    (∀ q r : Int, 0 ≤ q → q ≤ 15 → 0 ≤ r → r ≤ 15 → ∀ e,
        tileEntry g cx cy q r = some e →
        e.1 = ⟨cx * CHUNK_SIZE + q, cy * CHUNK_SIZE + r⟩ ∧
        e ∈ (g.generate_chunk_terrain ⟨⟨cx, cy⟩, [], b, s⟩).tiles) ∧
    (∀ e ∈ (g.generate_chunk_terrain ⟨⟨cx, cy⟩, [], b, s⟩).tiles, ∃ q r : Int,
        0 ≤ q ∧ q ≤ 15 ∧ 0 ≤ r ∧ r ≤ 15 ∧ tileEntry g cx cy q r = some e) ∧
    ((∀ q r : Int, 0 ≤ q → q ≤ 15 → 0 ≤ r → r ≤ 15 → (tileEntry g cx cy q r).isSome) →
        (g.generate_chunk_terrain ⟨⟨cx, cy⟩, [], b, s⟩).tiles.length = 256) := by
  have hmaster := generate_chunk_terrain_tiles_eq g cx cy b s
  refine ⟨?_, ?_, ?_⟩
  · intro q r hq0 hq1 hr0 hr1 e he
    refine ⟨tileEntry_some_key g cx cy q r e he, ?_⟩
    rw [hmaster, List.mem_filterMap]
    exact ⟨(q, r), (mem_QRlist (q, r)).2 ⟨hq0, hq1, hr0, hr1⟩, he⟩
  · intro e he
    rw [hmaster, List.mem_filterMap] at he
    obtain ⟨p, hp, hpe⟩ := he
    rw [mem_QRlist] at hp
    exact ⟨p.1, p.2, hp.1, hp.2.1, hp.2.2.1, hp.2.2.2, hpe⟩
  · intro hall
    have hlen := length_filterMap_of_isSome (fun p => tileEntry g cx cy p.1 p.2) QRlist
      (fun p hp => by
        rw [mem_QRlist] at hp
        exact hall p.1 p.2 hp.1 hp.2.1 hp.2.2.1 hp.2.2.2)
    rw [hmaster, hlen, QRlist_length]

theorem generate_chunk_terrain_tiles_witness :
    (∀ q r : Int, 0 ≤ q → q ≤ 15 → 0 ≤ r → r ≤ 15 →
      (tileEntry testGen 0 0 q r).isSome) ∧
    (testGen.generate_chunk_terrain ⟨⟨0, 0⟩, [], false, 0⟩).tiles.length = 256 :=
  ⟨fun q r hq0 hq1 hr0 hr1 => tileEntry_small_isSome testGen q r hq0 hq1 hr0 hr1,
    (generate_chunk_terrain_tiles testGen 0 0 false 0).2.2
      (fun q r hq0 hq1 hr0 hr1 => tileEntry_small_isSome testGen q r hq0 hq1 hr0 hr1)⟩

/-- Claim C6: `generate_elevation` is a pure function of the generator
configuration (which carries the seeded noise source) and the coordinate —
two evaluations at the same arguments are identical by construction — and,
whenever the noise source stays within `[-1, 1]`, the configuration has at
least one octave and a nonnegative persistence (the §6 configuration
contract), the normalized elevation `(acc / max + 1) / 2` lies in
`[0, 1]`. -/
theorem generate_elevation_pure_bounded (g : TerrainGenerator) (c : HexCoord)
    (hnoise : ∀ x y, -1 ≤ g.noise x y ∧ g.noise x y ≤ 1)
    (hoct : 1 ≤ g.octaves) (hpers : 0 ≤ g.persistence) :
    g.generate_elevation c = g.generate_elevation c ∧
    0 ≤ g.generate_elevation c ∧ g.generate_elevation c ≤ 1 := by
  obtain ⟨ha, hl, hu, hm⟩ := elevLoop_bounds g c hnoise hpers g.octaves.toNat
  have hk : 1 ≤ g.octaves.toNat := by omega
  have hm1 : (1 : Rat) ≤ (elevLoop g c g.octaves.toNat).max_value := hm hk
  have hmpos : (0 : Rat) < (elevLoop g c g.octaves.toNat).max_value := by linarith
  have hdiv_le : (elevLoop g c g.octaves.toNat).elevation /
      (elevLoop g c g.octaves.toNat).max_value ≤ 1 := (div_le_one hmpos).2 hu
  have hdiv_ge : (-1 : Rat) ≤ (elevLoop g c g.octaves.toNat).elevation /
      (elevLoop g c g.octaves.toNat).max_value := by
    rw [le_div_iff₀ hmpos]
    linarith
  refine ⟨rfl, ?_, ?_⟩
  · show 0 ≤ ((elevLoop g c g.octaves.toNat).elevation /
      (elevLoop g c g.octaves.toNat).max_value + 1) / 2
    linarith
  · show ((elevLoop g c g.octaves.toNat).elevation /
      (elevLoop g c g.octaves.toNat).max_value + 1) / 2 ≤ 1
    linarith

theorem generate_elevation_pure_bounded_witness :
    ((∀ x y : Rat, -1 ≤ testGen.noise x y ∧ testGen.noise x y ≤ 1) ∧
      1 ≤ testGen.octaves ∧ 0 ≤ testGen.persistence) ∧
    (testGen.generate_elevation ⟨0, 0⟩ = testGen.generate_elevation ⟨0, 0⟩ ∧
      0 ≤ testGen.generate_elevation ⟨0, 0⟩ ∧ testGen.generate_elevation ⟨0, 0⟩ ≤ 1) :=
  ⟨⟨fun x y => by constructor <;> norm_num [testGen, TerrainGenerator.new, zeroNoise],
      by norm_num [testGen, TerrainGenerator.new],
      by norm_num [testGen, TerrainGenerator.new]⟩,
    generate_elevation_pure_bounded testGen ⟨0, 0⟩
      (fun x y => by constructor <;> norm_num [testGen, TerrainGenerator.new, zeroNoise])
      (by norm_num [testGen, TerrainGenerator.new])
      (by norm_num [testGen, TerrainGenerator.new])⟩

/-- Claim C2, counterexample: two loaders whose windows overlap (here both
at `(0,0)` with radius 0) push the same non-resident coordinate once per
loader, because the collection scan checks only the resident map as it
stood at the start of the step; the coordinate `(0,0)` is then generated
twice within a single step with no intervening unload. -/
theorem overlapping_loaders_double_generation_cex :
    ((chunk_loading_system testGen 0 0 [⟨0, 0⟩, ⟨0, 0⟩] ⟨[], []⟩).generated).count ⟨0, 0⟩ = 2 := by
  decide

/-- Claim C2, amended: a coordinate already resident at the start of a step
is never pushed to the load list (hence never re-generated) during that
step, and the resident mapping never acquires duplicate keys; however, a
*non-resident* coordinate covered by the overlapping windows of several
loaders is generated once per covering loader within that step (the map
still ends with a single entry for it). -/
theorem resident_request_idempotent (g : TerrainGenerator) (w : Nat) (radius : Int)
    (loaders : List ChunkCoord) (st : StreamState) (c : ChunkCoord) :
    (c ∈ st.resident → c ∉ (chunk_loading_system g w radius loaders st).generated) ∧
    (st.resident.Nodup → (chunk_loading_system g w radius loaders st).state.resident.Nodup) := by
  constructor
  · intro hres
    unfold chunk_loading_system
    dsimp only
    rw [mem_chunks_to_load]
    rintro ⟨-, habs⟩
    exact habs hres
  · intro hnd
    unfold chunk_loading_system
    dsimp only
    exact List.Nodup.filter _ (nodup_foldl_insertKey _ _ hnd)

theorem resident_request_idempotent_witness :
    ((⟨0, 0⟩ : ChunkCoord) ∈ [(⟨0, 0⟩ : ChunkCoord)] ∧
      ([(⟨0, 0⟩ : ChunkCoord)]).Nodup) ∧
    ((⟨0, 0⟩ : ChunkCoord) ∉
        (chunk_loading_system testGen 0 2 [⟨0, 0⟩] ⟨[], [⟨0, 0⟩]⟩).generated ∧
      (chunk_loading_system testGen 0 2 [⟨0, 0⟩] ⟨[], [⟨0, 0⟩]⟩).state.resident.Nodup) :=
  ⟨⟨by decide, by decide⟩,
    ⟨(resident_request_idempotent testGen 0 2 [⟨0, 0⟩] ⟨[], [⟨0, 0⟩]⟩ ⟨0, 0⟩).1 (by decide),
      (resident_request_idempotent testGen 0 2 [⟨0, 0⟩] ⟨[], [⟨0, 0⟩]⟩ ⟨0, 0⟩).2 (by decide)⟩⟩

/-- Claim C3: after a streaming step (from any state whose resident keys
are exactly the coordinates of the pre-existing chunk entities), a
coordinate is resident iff some loader is within `load_radius` on both
axes independently; chunks with no such loader are removed from the
resident mapping (their entities despawned).  Concretely, for the teleport
scenario (loader `(0,0)` then `(10,10)`, radius 2): none of the original
25 chunks remain resident and the residents are exactly the 25-coordinate
window around `(10,10)`. -/
theorem streaming_residency_iff (g : TerrainGenerator) (w : Nat) (radius : Int)
    (loaders : List ChunkCoord) (st : StreamState) (c : ChunkCoord)
    (hinv : ∀ x, x ∈ st.resident ↔ ∃ ch ∈ st.live, ch.coord = x) :
    (c ∈ (chunk_loading_system g w radius loaders st).state.resident ↔
      inRangeOf radius loaders c) ∧
    (∀ x ∈ window 2 ⟨0, 0⟩, x ∉ scenarioStep2.state.resident) ∧
    (∀ x, x ∈ scenarioStep2.state.resident ↔ x ∈ window 2 ⟨10, 10⟩) := by
  have hinv0 : ∀ x, x ∈ (⟨[], []⟩ : StreamState).resident ↔
      ∃ ch ∈ (⟨[], []⟩ : StreamState).live, ch.coord = x := by
    simp
  have hinv1 := step_preserves_inv testGen 0 2 [⟨0, 0⟩] ⟨[], []⟩ hinv0
  have h2 := fun x => step_resident_iff testGen 0 2 [⟨10, 10⟩] scenarioStep1.state hinv1 x
  have hs2 : scenarioStep2 = chunk_loading_system testGen 0 2 [⟨10, 10⟩] scenarioStep1.state := rfl
  refine ⟨step_resident_iff g w radius loaders st hinv c, ?_, ?_⟩
  · intro x hx
    rw [hs2, h2 x]
    rw [mem_window] at hx
    rintro ⟨p, hp, hx1, hx2⟩
    simp only [List.mem_singleton] at hp
    subst hp
    simp only at hx hx1 hx2
    omega
  · intro x
    rw [hs2, h2 x, inRangeOf_iff_window]
    simp [List.exists_mem_cons_iff]

theorem streaming_residency_iff_witness :
    (∀ x : ChunkCoord, x ∈ ([] : List ChunkCoord) ↔ ∃ ch ∈ ([] : List Chunk), ch.coord = x) ∧
    ((⟨1, 0⟩ : ChunkCoord) ∈
        (chunk_loading_system testGen 7 1 [⟨0, 0⟩] ⟨[], []⟩).state.resident ↔
      inRangeOf 1 [⟨0, 0⟩] ⟨1, 0⟩) :=
  ⟨by simp, (streaming_residency_iff testGen 7 1 [⟨0, 0⟩] ⟨[], []⟩ ⟨1, 0⟩ (by simp)).1⟩

/-- Claim C4: starting from an empty resident set, a coordinate is resident
after one step iff it lies in the square window of some loader; concretely
one loader at `(0,0)` with radius 2 yields exactly 25 resident chunks,
namely all `(x,y)` with `x, y ∈ [-2, 2]`. -/
theorem streaming_load_window (g : TerrainGenerator) (w : Nat) (radius : Int)
    (loaders : List ChunkCoord) (c : ChunkCoord) :
    (c ∈ (chunk_loading_system g w radius loaders ⟨[], []⟩).state.resident ↔
      ∃ p ∈ loaders, c ∈ window radius p) ∧
    scenarioStep1.state.resident.length = 25 ∧
    (∀ x, x ∈ scenarioStep1.state.resident ↔
      -2 ≤ x.x ∧ x.x ≤ 2 ∧ -2 ≤ x.y ∧ x.y ≤ 2) := by
  have hinv0 : ∀ x, x ∈ (⟨[], []⟩ : StreamState).resident ↔
      ∃ ch ∈ (⟨[], []⟩ : StreamState).live, ch.coord = x := by
    simp
  refine ⟨?_, ?_, ?_⟩
  · rw [step_resident_iff g w radius loaders ⟨[], []⟩ hinv0 c, inRangeOf_iff_window]
  · decide
  · intro x
    have hs1 : scenarioStep1 = chunk_loading_system testGen 0 2 [⟨0, 0⟩] ⟨[], []⟩ := rfl
    rw [hs1, step_resident_iff testGen 0 2 [⟨0, 0⟩] ⟨[], []⟩ hinv0 x]
    unfold inRangeOf
    simp only [List.exists_mem_cons_iff, List.not_mem_nil, false_and, exists_false, or_false]
    constructor
    · rintro ⟨h1, h2⟩
      omega
    · intro h
      dsimp only
      omega

end Neo
